import Mathlib

/-!
Shallow embedding of the Window Registry & Controller of the simulated
desktop environment (source: `src/components/desktop/apps/ParkingSF.tsx`,
the `WindowManagerProvider` / `useWindowManager` block).

The registry state is the pair of the `windows` array and the `topZIndex`
counter held by the provider.  Each mutator (`openWindow`, `closeWindow`,
`minimizeWindow`, `maximizeWindow`, `restoreWindow`, `focusWindow`,
`updateWindowPosition`, `updateWindowSize`) is translated as a pure function
from registry state to registry state, since in the source every mutator is
a single functional state update executed atomically on the event loop.
Telemetry emission (`Sentry.logger` / `Sentry.metrics` calls) does not touch
the registry state and is dropped.
-/

namespace WindowManager

/-- Modelled from the spec: the `WindowState` record type is imported by the
source from `./types`, a file not present in the repository snapshot; its
field list follows the spec data model (section 3): `id`, `title`, geometry
`x, y, width, height`, controller-assigned `zIndex` and `isFocused`, the two
flags `isMinimized`, `isMaximized`, and an opaque app-specific `payload`
passed through unchanged.  Numbers that the controller never computes with
(geometry) are `Int`; `zIndex` is `Nat` since it only ever takes values of
the monotone counter. -/
structure WindowState where
  id : String
  title : String
  x : Int
  y : Int
  width : Int
  height : Int
  zIndex : Nat
  isMinimized : Bool
  isMaximized : Bool
  isFocused : Bool
  payload : String
  deriving DecidableEq, Repr

/-- The argument of `openWindow`: TypeScript `Omit<WindowState, 'zIndex' | 'isFocused'>` —
every `WindowState` field except the two controller-assigned ones. -/
structure WindowDescriptor where
  id : String
  title : String
  x : Int
  y : Int
  width : Int
  height : Int
  isMinimized : Bool
  isMaximized : Bool
  payload : String
  deriving DecidableEq, Repr

/-- The registry state: the `windows` array and the `topZIndex` counter of
`WindowManagerProvider`. -/
structure RegistryState where
  windows : List WindowState
  topZIndex : Nat
  deriving DecidableEq, Repr

/-- Initial provider state: `useState<WindowState[]>([])` and `useState(100)`. -/
def initialRegistry : RegistryState := { windows := [], topZIndex := 100 }

/-- `openWindow` from the source: bump the counter; if a record with the same
`id` exists and is minimized, un-minimize it, focus it and give it the new
`zIndex`, clearing focus on all others; if it exists and is not minimized,
focus it with the new `zIndex`, clearing focus on all others; otherwise
append a fresh record built from the descriptor with the new `zIndex` and
focus, clearing focus on all existing records. -/
def openWindow (window : WindowDescriptor) (s : RegistryState) : RegistryState :=
  let newZ := s.topZIndex + 1
  match s.windows.find? (fun w => w.id == window.id) with
  | some existing =>
    if existing.isMinimized then
      { windows := s.windows.map (fun w =>
          if w.id == window.id then
            { w with isMinimized := false, isFocused := true, zIndex := newZ }
          else
            { w with isFocused := false }),
        topZIndex := newZ }
    else
      { windows := s.windows.map (fun w =>
          if w.id == window.id then
            { w with isFocused := true, zIndex := newZ }
          else
            { w with isFocused := false }),
        topZIndex := newZ }
  | none =>
    { windows := s.windows.map (fun w => { w with isFocused := false }) ++
        [{ id := window.id, title := window.title, x := window.x, y := window.y,
           width := window.width, height := window.height, zIndex := newZ,
           isMinimized := window.isMinimized, isMaximized := window.isMaximized,
           isFocused := true, payload := window.payload }],
      topZIndex := newZ }

/-- `closeWindow` from the source: `setWindows(prev => prev.filter(w => w.id !== id))`. -/
def closeWindow (id : String) (s : RegistryState) : RegistryState :=
  { s with windows := s.windows.filter (fun w => !(w.id == id)) }

/-- `minimizeWindow` from the source: matching record gets
`isMinimized = true, isFocused = false`; others untouched. -/
def minimizeWindow (id : String) (s : RegistryState) : RegistryState :=
  { s with windows := s.windows.map (fun w =>
      if w.id == id then { w with isMinimized := true, isFocused := false } else w) }

/-- `maximizeWindow` from the source: toggles `isMaximized` on the matching
record; others untouched. -/
def maximizeWindow (id : String) (s : RegistryState) : RegistryState :=
  { s with windows := s.windows.map (fun w =>
      if w.id == id then { w with isMaximized := !w.isMaximized } else w) }

/-- `restoreWindow` from the source: bump the counter; matching record gets
`isMinimized = false, isFocused = true` and the new `zIndex`; every other
record gets `isFocused = false`. -/
def restoreWindow (id : String) (s : RegistryState) : RegistryState :=
  let newZ := s.topZIndex + 1
  { windows := s.windows.map (fun w =>
      if w.id == id then
        { w with isMinimized := false, isFocused := true, zIndex := newZ }
      else
        { w with isFocused := false }),
    topZIndex := newZ }

/-- `focusWindow` from the source: bump the counter; matching record gets
`isFocused = true` and the new `zIndex`; every other record gets
`isFocused = false`. -/
def focusWindow (id : String) (s : RegistryState) : RegistryState :=
  let newZ := s.topZIndex + 1
  { windows := s.windows.map (fun w =>
      if w.id == id then
        { w with isFocused := true, zIndex := newZ }
      else
        { w with isFocused := false }),
    topZIndex := newZ }

/-- `updateWindowPosition` from the source: matching record gets the new
`x, y`; others untouched. -/
def updateWindowPosition (id : String) (x y : Int) (s : RegistryState) : RegistryState :=
  { s with windows := s.windows.map (fun w =>
      if w.id == id then { w with x := x, y := y } else w) }

/-- `updateWindowSize` from the source: matching record gets the new
`width, height`; others untouched. -/
def updateWindowSize (id : String) (width height : Int) (s : RegistryState) : RegistryState :=
  { s with windows := s.windows.map (fun w =>
      if w.id == id then { w with width := width, height := height } else w) }

/-- One invocation of the controller API, for reasoning about sequences of
operations. -/
inductive WMOp where
  | openWindow (window : WindowDescriptor)
  | closeWindow (id : String)
  | minimizeWindow (id : String)
  | maximizeWindow (id : String)
  | restoreWindow (id : String)
  | focusWindow (id : String)
  | updateWindowPosition (id : String) (x y : Int)
  | updateWindowSize (id : String) (width height : Int)
  deriving DecidableEq, Repr

/-- Apply one controller operation to a registry state. -/
def applyOp (s : RegistryState) : WMOp → RegistryState
  | WMOp.openWindow window => openWindow window s
  | WMOp.closeWindow id => closeWindow id s
  | WMOp.minimizeWindow id => minimizeWindow id s
  | WMOp.maximizeWindow id => maximizeWindow id s
  | WMOp.restoreWindow id => restoreWindow id s
  | WMOp.focusWindow id => focusWindow id s
  | WMOp.updateWindowPosition id x y => updateWindowPosition id x y s
  | WMOp.updateWindowSize id width height => updateWindowSize id width height s

/-- Run a sequence of operations from a given state. -/
def runFrom (s : RegistryState) (ops : List WMOp) : RegistryState :=
  ops.foldl applyOp s

/-- Run a sequence of operations from the initial empty registry. -/
def runOps (ops : List WMOp) : RegistryState :=
  runFrom initialRegistry ops

/-- The registry states reachable from the initial empty registry by the
eight controller operations. -/
inductive Reachable : RegistryState → Prop where
  | init : Reachable initialRegistry
  | step {s : RegistryState} (op : WMOp) : Reachable s → Reachable (applyOp s op)

/-- Number of focused records in a registry state. -/
def focusedCount (s : RegistryState) : Nat :=
  s.windows.countP (fun w => w.isFocused)

/-- The ids currently in the registry are pairwise distinct. -/
def uniqueIds (s : RegistryState) : Prop :=
  (s.windows.map (fun w => w.id)).Nodup

/-- Every record's `zIndex` is at most the `topZIndex` high-water mark. -/
def zBounded (s : RegistryState) : Prop :=
  ∀ w ∈ s.windows, w.zIndex ≤ s.topZIndex

/-- The combined inductive invariant of the registry. -/
def Inv (s : RegistryState) : Prop :=
  uniqueIds s ∧ focusedCount s ≤ 1 ∧ zBounded s

/-- Every minimized record is unfocused (spec invariant 4). -/
def minimizedUnfocused (s : RegistryState) : Prop :=
  ∀ w ∈ s.windows, w.isMinimized = true → w.isFocused = false

/-- An operation is focus-safe in state `s` when it cannot produce a record
that is simultaneously minimized and focused: an `openWindow` whose id is new
must carry `isMinimized = false` in its descriptor, and `focusWindow` must
not target a currently minimized record.  All other operations are
unconditionally safe. -/
def safeOp (s : RegistryState) : WMOp → Prop
  | WMOp.openWindow d => d.isMinimized = false ∨ ∃ w ∈ s.windows, w.id = d.id
  | WMOp.focusWindow i => ∀ w ∈ s.windows, w.id = i → w.isMinimized = false
  | _ => True

/-- Registry states reachable from the initial registry by focus-safe
operation sequences. -/
inductive SafeReachable : RegistryState → Prop where
  | init : SafeReachable initialRegistry
  | step {s : RegistryState} (op : WMOp) :
      SafeReachable s → safeOp s op → SafeReachable (applyOp s op)

/-- The focus-affecting operations: `openWindow` (all three branches),
`restoreWindow` and `focusWindow`.  Each of them bumps the `topZIndex`
counter. -/
def focusAffecting : WMOp → Bool
  | WMOp.openWindow _ => true
  | WMOp.restoreWindow _ => true
  | WMOp.focusWindow _ => true
  | _ => false

/-- The id whose record a focus-affecting operation assigns the fresh
`zIndex` to (meaningful only when `focusAffecting` holds). -/
def affectedId : WMOp → String
  | WMOp.openWindow d => d.id
  | WMOp.restoreWindow i => i
  | WMOp.focusWindow i => i
  | _ => ""

/-- The value carried by `WindowManagerContext`: the registry snapshot
(`windows` and the `topZIndex` high-water mark).  The eight operation
closures the source context also carries are the top-level functions of this
file. -/
structure WindowManagerContextType where
  windows : List WindowState
  topZIndex : Nat
  deriving DecidableEq, Repr

/-- `useWindowManager` from the source: reads the context and throws
`useWindowManager must be used within WindowManagerProvider` when it is
`null` (no surrounding `WindowManagerProvider`); otherwise returns the
context.  The throw is modelled as `Except.error`. -/
def useWindowManager (context : Option WindowManagerContextType) :
    Except String WindowManagerContextType :=
  match context with
  | none => Except.error "useWindowManager must be used within WindowManagerProvider"
  | some ctx => Except.ok ctx

/-- Sample descriptor for window "a". -/
def descA : WindowDescriptor :=
  { id := "a", title := "A", x := 0, y := 0, width := 100, height := 100,
    isMinimized := false, isMaximized := false, payload := "" }

/-- Sample descriptor for window "b". -/
def descB : WindowDescriptor :=
  { id := "b", title := "B", x := 10, y := 10, width := 200, height := 150,
    isMinimized := false, isMaximized := false, payload := "" }

/-- Helper: a map that preserves `id` preserves the list of ids. -/
lemma map_ids_eq {l : List WindowState} {f : WindowState → WindowState}
    (hf : ∀ w, (f w).id = w.id) :
    (l.map f).map (fun w => w.id) = l.map (fun w => w.id) := by
  rw [List.map_map]
  exact List.map_congr_left fun a _ => hf a

/-- Helper: absence of an id in the id list, pointwise. -/
lemma not_mem_map_ids {l : List WindowState} {i : String}
    (h : i ∉ l.map (fun w => w.id)) : ∀ w ∈ l, w.id ≠ i :=
  fun w hw hwi => h (List.mem_map.mpr ⟨w, hw, hwi⟩)

/-- Helper: with pairwise-distinct ids, at most one record matches any id. -/
lemma countP_id_le_one {l : List WindowState}
    (h : (l.map (fun w => w.id)).Nodup) (i : String) :
    l.countP (fun w => w.id == i) ≤ 1 := by
  induction l with
  | nil => simp
  | cons a t ih =>
    rw [List.map_cons, List.nodup_cons] at h
    rw [List.countP_cons]
    by_cases ha : a.id = i
    · have ht : t.countP (fun w => w.id == i) = 0 := by
        rw [List.countP_eq_zero]
        intro w hw
        simp only [beq_iff_eq]
        intro hwi
        exact not_mem_map_ids h.1 w hw (hwi.trans ha.symm)
      simp [ht, ha]
    · simpa [ha] using ih h.2

/-- Helper: with pairwise-distinct ids, a present id matches exactly one record. -/
lemma countP_id_eq_one {l : List WindowState}
    (h : (l.map (fun w => w.id)).Nodup) {w₀ : WindowState} (hw₀ : w₀ ∈ l)
    {i : String} (hid : w₀.id = i) :
    l.countP (fun w => w.id == i) = 1 := by
  have hle := countP_id_le_one h i
  have hge : 0 < l.countP (fun w => w.id == i) :=
    List.countP_pos_iff.mpr ⟨w₀, hw₀, by simp [hid]⟩
  omega

/-- Helper: with pairwise-distinct ids, two members with equal ids are equal. -/
lemma eq_of_mem_of_id_eq {l : List WindowState}
    (h : (l.map (fun w => w.id)).Nodup) {u v : WindowState}
    (hu : u ∈ l) (hv : v ∈ l) (hid : u.id = v.id) : u = v :=
  List.inj_on_of_nodup_map h hu hv hid

/-- Helper: the focused count of a mapped list whose map sets `isFocused`
exactly on id matches. -/
lemma countP_focused_map {l : List WindowState} {f : WindowState → WindowState}
    {i : String} (hf : ∀ w, (f w).isFocused = (w.id == i)) :
    (l.map f).countP (fun w => w.isFocused) = l.countP (fun w => w.id == i) := by
  rw [List.countP_map]
  exact List.countP_congr fun w _ => by simp [Function.comp, hf w]

/-- Helper: the focused count never grows under a map that only ever clears
`isFocused`. -/
lemma countP_focused_map_le {l : List WindowState} {f : WindowState → WindowState}
    (hf : ∀ w, (f w).isFocused = true → w.isFocused = true) :
    (l.map f).countP (fun w => w.isFocused) ≤ l.countP (fun w => w.isFocused) := by
  rw [List.countP_map]
  exact List.countP_mono_left fun w _ hw => hf w hw

/-- Unfolding of `closeWindow`: the windows list. -/
lemma closeWindow_windows (i : String) (s : RegistryState) :
    (closeWindow i s).windows = s.windows.filter (fun w => !(w.id == i)) := rfl

/-- Unfolding of `closeWindow`: the counter is untouched. -/
lemma closeWindow_topZIndex (i : String) (s : RegistryState) :
    (closeWindow i s).topZIndex = s.topZIndex := rfl

/-- Unfolding of `minimizeWindow`: the windows list. -/
lemma minimizeWindow_windows (i : String) (s : RegistryState) :
    (minimizeWindow i s).windows = s.windows.map (fun w =>
      if w.id == i then { w with isMinimized := true, isFocused := false } else w) := rfl

/-- Unfolding of `minimizeWindow`: the counter is untouched. -/
lemma minimizeWindow_topZIndex (i : String) (s : RegistryState) :
    (minimizeWindow i s).topZIndex = s.topZIndex := rfl

/-- Unfolding of `maximizeWindow`: the windows list. -/
lemma maximizeWindow_windows (i : String) (s : RegistryState) :
    (maximizeWindow i s).windows = s.windows.map (fun w =>
      if w.id == i then { w with isMaximized := !w.isMaximized } else w) := rfl

/-- Unfolding of `maximizeWindow`: the counter is untouched. -/
lemma maximizeWindow_topZIndex (i : String) (s : RegistryState) :
    (maximizeWindow i s).topZIndex = s.topZIndex := rfl

/-- Unfolding of `restoreWindow`: the windows list. -/
lemma restoreWindow_windows (i : String) (s : RegistryState) :
    (restoreWindow i s).windows = s.windows.map (fun w =>
      if w.id == i then
        { w with isMinimized := false, isFocused := true, zIndex := s.topZIndex + 1 }
      else
        { w with isFocused := false }) := rfl

/-- Unfolding of `restoreWindow`: the counter is bumped. -/
lemma restoreWindow_topZIndex (i : String) (s : RegistryState) :
    (restoreWindow i s).topZIndex = s.topZIndex + 1 := rfl

/-- Unfolding of `focusWindow`: the windows list. -/
lemma focusWindow_windows (i : String) (s : RegistryState) :
    (focusWindow i s).windows = s.windows.map (fun w =>
      if w.id == i then
        { w with isFocused := true, zIndex := s.topZIndex + 1 }
      else
        { w with isFocused := false }) := rfl

/-- Unfolding of `focusWindow`: the counter is bumped. -/
lemma focusWindow_topZIndex (i : String) (s : RegistryState) :
    (focusWindow i s).topZIndex = s.topZIndex + 1 := rfl

/-- Unfolding of `updateWindowPosition`: the windows list. -/
lemma updateWindowPosition_windows (i : String) (x y : Int) (s : RegistryState) :
    (updateWindowPosition i x y s).windows = s.windows.map (fun w =>
      if w.id == i then { w with x := x, y := y } else w) := rfl

/-- Unfolding of `updateWindowPosition`: the counter is untouched. -/
lemma updateWindowPosition_topZIndex (i : String) (x y : Int) (s : RegistryState) :
    (updateWindowPosition i x y s).topZIndex = s.topZIndex := rfl

/-- Unfolding of `updateWindowSize`: the windows list. -/
lemma updateWindowSize_windows (i : String) (wd ht : Int) (s : RegistryState) :
    (updateWindowSize i wd ht s).windows = s.windows.map (fun w =>
      if w.id == i then { w with width := wd, height := ht } else w) := rfl

/-- Unfolding of `updateWindowSize`: the counter is untouched. -/
lemma updateWindowSize_topZIndex (i : String) (wd ht : Int) (s : RegistryState) :
    (updateWindowSize i wd ht s).topZIndex = s.topZIndex := rfl

/-- `openWindow` when a matching record exists and is minimized. -/
lemma openWindow_eq_of_minimized {d : WindowDescriptor} {s : RegistryState}
    {e : WindowState} (hfind : s.windows.find? (fun w => w.id == d.id) = some e)
    (hmin : e.isMinimized = true) :
    openWindow d s =
      { windows := s.windows.map (fun w =>
          if w.id == d.id then
            { w with isMinimized := false, isFocused := true, zIndex := s.topZIndex + 1 }
          else
            { w with isFocused := false }),
        topZIndex := s.topZIndex + 1 } := by
  unfold openWindow
  rw [hfind]
  simp [hmin]

/-- `openWindow` when a matching record exists and is not minimized. -/
lemma openWindow_eq_of_not_minimized {d : WindowDescriptor} {s : RegistryState}
    {e : WindowState} (hfind : s.windows.find? (fun w => w.id == d.id) = some e)
    (hmin : e.isMinimized = false) :
    openWindow d s =
      { windows := s.windows.map (fun w =>
          if w.id == d.id then
            { w with isFocused := true, zIndex := s.topZIndex + 1 }
          else
            { w with isFocused := false }),
        topZIndex := s.topZIndex + 1 } := by
  unfold openWindow
  rw [hfind]
  simp [hmin]

/-- `openWindow` when no matching record exists. -/
lemma openWindow_eq_of_absent {d : WindowDescriptor} {s : RegistryState}
    (hfind : s.windows.find? (fun w => w.id == d.id) = none) :
    openWindow d s =
      { windows := s.windows.map (fun w => { w with isFocused := false }) ++
          [{ id := d.id, title := d.title, x := d.x, y := d.y,
             width := d.width, height := d.height, zIndex := s.topZIndex + 1,
             isMinimized := d.isMinimized, isMaximized := d.isMaximized,
             isFocused := true, payload := d.payload }],
        topZIndex := s.topZIndex + 1 } := by
  unfold openWindow
  rw [hfind]

/-- The invariant is preserved by `openWindow`. -/
lemma inv_openWindow (d : WindowDescriptor) (s : RegistryState) (h : Inv s) :
    Inv (openWindow d s) := by
  obtain ⟨hids, _hfoc, hz⟩ := h
  unfold uniqueIds at hids
  cases hfind : s.windows.find? (fun w => w.id == d.id) with
  | some e =>
    by_cases hmin : e.isMinimized = true
    · rw [openWindow_eq_of_minimized hfind hmin]
      refine ⟨?_, ?_, ?_⟩
      · unfold uniqueIds
        simp only []
        rw [map_ids_eq (fun w => by by_cases hw : w.id = d.id <;> simp [hw])]
        exact hids
      · unfold focusedCount
        simp only []
        rw [countP_focused_map (i := d.id) (fun w => by by_cases hw : w.id = d.id <;> simp [hw])]
        exact countP_id_le_one hids d.id
      · intro w hw
        simp only [List.mem_map] at hw
        obtain ⟨u, hu, rfl⟩ := hw
        have := hz u hu
        by_cases hui : u.id = d.id <;> simp [hui] <;> omega
    · rw [openWindow_eq_of_not_minimized hfind (by simpa using hmin)]
      refine ⟨?_, ?_, ?_⟩
      · unfold uniqueIds
        simp only []
        rw [map_ids_eq (fun w => by by_cases hw : w.id = d.id <;> simp [hw])]
        exact hids
      · unfold focusedCount
        simp only []
        rw [countP_focused_map (i := d.id) (fun w => by by_cases hw : w.id = d.id <;> simp [hw])]
        exact countP_id_le_one hids d.id
      · intro w hw
        simp only [List.mem_map] at hw
        obtain ⟨u, hu, rfl⟩ := hw
        have := hz u hu
        by_cases hui : u.id = d.id <;> simp [hui] <;> omega
  | none =>
    have habs : ∀ w ∈ s.windows, w.id ≠ d.id := by
      intro w hw
      have := List.find?_eq_none.mp hfind w hw
      simpa using this
    rw [openWindow_eq_of_absent hfind]
    refine ⟨?_, ?_, ?_⟩
    · unfold uniqueIds
      simp only [List.map_append]
      rw [map_ids_eq (f := fun w => { w with isFocused := false }) (fun w => rfl)]
      refine List.Nodup.append hids (by simp) ?_
      intro i hi hi'
      simp only [List.map_cons, List.map_nil, List.mem_singleton] at hi'
      obtain ⟨w, hw, rfl⟩ := List.mem_map.mp hi
      exact habs w hw hi'
    · unfold focusedCount
      simp only [List.countP_append, List.countP_map]
      simp
    · intro w hw
      simp only [List.mem_append, List.mem_map, List.mem_singleton] at hw
      rcases hw with ⟨u, hu, rfl⟩ | rfl
      · have := hz u hu
        show u.zIndex ≤ s.topZIndex + 1
        omega
      · simp

/-- The invariant is preserved by `closeWindow`. -/
lemma inv_closeWindow (i : String) (s : RegistryState) (h : Inv s) :
    Inv (closeWindow i s) := by
  obtain ⟨hids, hfoc, hz⟩ := h
  refine ⟨?_, ?_, ?_⟩
  · unfold uniqueIds
    rw [closeWindow_windows]
    exact List.Nodup.sublist (List.Sublist.map _ (List.filter_sublist _)) hids
  · unfold focusedCount
    rw [closeWindow_windows]
    exact le_trans (List.Sublist.countP_le _ (List.filter_sublist _)) hfoc
  · intro w hw
    rw [closeWindow_windows] at hw
    rw [closeWindow_topZIndex]
    exact hz w (List.mem_filter.mp hw).1

/-- The invariant is preserved by `minimizeWindow`. -/
lemma inv_minimizeWindow (i : String) (s : RegistryState) (h : Inv s) :
    Inv (minimizeWindow i s) := by
  obtain ⟨hids, hfoc, hz⟩ := h
  refine ⟨?_, ?_, ?_⟩
  · unfold uniqueIds
    rw [minimizeWindow_windows]
    rw [map_ids_eq (fun w => by by_cases hw : w.id = i <;> simp [hw])]
    exact hids
  · unfold focusedCount
    rw [minimizeWindow_windows]
    refine le_trans (countP_focused_map_le (fun w => ?_)) hfoc
    by_cases hw : w.id = i <;> simp [hw]
  · intro w hw
    rw [minimizeWindow_windows] at hw
    rw [minimizeWindow_topZIndex]
    obtain ⟨u, hu, rfl⟩ := List.mem_map.mp hw
    have := hz u hu
    by_cases hui : u.id = i <;> simp [hui] <;> omega

/-- The invariant is preserved by `maximizeWindow`. -/
lemma inv_maximizeWindow (i : String) (s : RegistryState) (h : Inv s) :
    Inv (maximizeWindow i s) := by
  obtain ⟨hids, hfoc, hz⟩ := h
  refine ⟨?_, ?_, ?_⟩
  · unfold uniqueIds
    rw [maximizeWindow_windows]
    rw [map_ids_eq (fun w => by by_cases hw : w.id = i <;> simp [hw])]
    exact hids
  · unfold focusedCount
    rw [maximizeWindow_windows]
    refine le_trans (countP_focused_map_le (fun w => ?_)) hfoc
    by_cases hw : w.id = i <;> simp [hw]
  · intro w hw
    rw [maximizeWindow_windows] at hw
    rw [maximizeWindow_topZIndex]
    obtain ⟨u, hu, rfl⟩ := List.mem_map.mp hw
    have := hz u hu
    by_cases hui : u.id = i <;> simp [hui] <;> omega

/-- The invariant is preserved by `restoreWindow`. -/
lemma inv_restoreWindow (i : String) (s : RegistryState) (h : Inv s) :
    Inv (restoreWindow i s) := by
  obtain ⟨hids, _hfoc, hz⟩ := h
  unfold uniqueIds at hids
  refine ⟨?_, ?_, ?_⟩
  · unfold uniqueIds
    rw [restoreWindow_windows]
    rw [map_ids_eq (fun w => by by_cases hw : w.id = i <;> simp [hw])]
    exact hids
  · unfold focusedCount
    rw [restoreWindow_windows]
    rw [countP_focused_map (i := i) (fun w => by by_cases hw : w.id = i <;> simp [hw])]
    exact countP_id_le_one hids i
  · intro w hw
    rw [restoreWindow_windows] at hw
    rw [restoreWindow_topZIndex]
    obtain ⟨u, hu, rfl⟩ := List.mem_map.mp hw
    have := hz u hu
    by_cases hui : u.id = i <;> simp [hui] <;> omega

/-- The invariant is preserved by `focusWindow`. -/
lemma inv_focusWindow (i : String) (s : RegistryState) (h : Inv s) :
    Inv (focusWindow i s) := by
  obtain ⟨hids, _hfoc, hz⟩ := h
  unfold uniqueIds at hids
  refine ⟨?_, ?_, ?_⟩
  · unfold uniqueIds
    rw [focusWindow_windows]
    rw [map_ids_eq (fun w => by by_cases hw : w.id = i <;> simp [hw])]
    exact hids
  · unfold focusedCount
    rw [focusWindow_windows]
    rw [countP_focused_map (i := i) (fun w => by by_cases hw : w.id = i <;> simp [hw])]
    exact countP_id_le_one hids i
  · intro w hw
    rw [focusWindow_windows] at hw
    rw [focusWindow_topZIndex]
    obtain ⟨u, hu, rfl⟩ := List.mem_map.mp hw
    have := hz u hu
    by_cases hui : u.id = i <;> simp [hui] <;> omega

/-- The invariant is preserved by `updateWindowPosition`. -/
lemma inv_updateWindowPosition (i : String) (x y : Int) (s : RegistryState)
    (h : Inv s) : Inv (updateWindowPosition i x y s) := by
  obtain ⟨hids, hfoc, hz⟩ := h
  refine ⟨?_, ?_, ?_⟩
  · unfold uniqueIds
    rw [updateWindowPosition_windows]
    rw [map_ids_eq (fun w => by by_cases hw : w.id = i <;> simp [hw])]
    exact hids
  · unfold focusedCount
    rw [updateWindowPosition_windows]
    refine le_trans (countP_focused_map_le (fun w => ?_)) hfoc
    by_cases hw : w.id = i <;> simp [hw]
  · intro w hw
    rw [updateWindowPosition_windows] at hw
    rw [updateWindowPosition_topZIndex]
    obtain ⟨u, hu, rfl⟩ := List.mem_map.mp hw
    have := hz u hu
    by_cases hui : u.id = i <;> simp [hui] <;> omega

/-- The invariant is preserved by `updateWindowSize`. -/
lemma inv_updateWindowSize (i : String) (wd ht : Int) (s : RegistryState)
    (h : Inv s) : Inv (updateWindowSize i wd ht s) := by
  obtain ⟨hids, hfoc, hz⟩ := h
  refine ⟨?_, ?_, ?_⟩
  · unfold uniqueIds
    rw [updateWindowSize_windows]
    rw [map_ids_eq (fun w => by by_cases hw : w.id = i <;> simp [hw])]
    exact hids
  · unfold focusedCount
    rw [updateWindowSize_windows]
    refine le_trans (countP_focused_map_le (fun w => ?_)) hfoc
    by_cases hw : w.id = i <;> simp [hw]
  · intro w hw
    rw [updateWindowSize_windows] at hw
    rw [updateWindowSize_topZIndex]
    obtain ⟨u, hu, rfl⟩ := List.mem_map.mp hw
    have := hz u hu
    by_cases hui : u.id = i <;> simp [hui] <;> omega

/-- The invariant is preserved by every controller operation. -/
lemma inv_applyOp (s : RegistryState) (op : WMOp) (h : Inv s) :
    Inv (applyOp s op) := by
  cases op with
  | openWindow d => exact inv_openWindow d s h
  | closeWindow i => exact inv_closeWindow i s h
  | minimizeWindow i => exact inv_minimizeWindow i s h
  | maximizeWindow i => exact inv_maximizeWindow i s h
  | restoreWindow i => exact inv_restoreWindow i s h
  | focusWindow i => exact inv_focusWindow i s h
  | updateWindowPosition i x y => exact inv_updateWindowPosition i x y s h
  | updateWindowSize i wd ht => exact inv_updateWindowSize i wd ht s h

/-- The initial registry satisfies the invariant. -/
lemma inv_initial : Inv initialRegistry := by
  refine ⟨?_, ?_, ?_⟩ <;> simp [initialRegistry, uniqueIds, focusedCount, zBounded]

/-- Every reachable state satisfies the invariant. -/
lemma reachable_inv {s : RegistryState} (h : Reachable s) : Inv s := by
  induction h with
  | init => exact inv_initial
  | step op _ ih => exact inv_applyOp _ op ih

/-- Every state produced by a run of operations is reachable. -/
lemma reachable_runFrom {s : RegistryState} (h : Reachable s) (ops : List WMOp) :
    Reachable (runFrom s ops) := by
  induction ops generalizing s with
  | nil => exact h
  | cons op t ih => exact ih (Reachable.step op h)

/-- The result of any operation sequence from the empty registry is reachable. -/
lemma reachable_runOps (ops : List WMOp) : Reachable (runOps ops) :=
  reachable_runFrom Reachable.init ops

/-- Helper: a registry state is determined by its two fields. -/
lemma registry_ext {s t : RegistryState} (hw : s.windows = t.windows)
    (hz : s.topZIndex = t.topZIndex) : s = t := by
  cases s; cases t; simp_all

/-- `openWindow` always bumps the counter by exactly 1, in all three branches. -/
lemma openWindow_topZIndex (d : WindowDescriptor) (s : RegistryState) :
    (openWindow d s).topZIndex = s.topZIndex + 1 := by
  unfold openWindow
  split
  · split <;> rfl
  · rfl

/-- Windows list of `openWindow` in the existing-and-minimized branch. -/
lemma openWindow_windows_of_minimized {d : WindowDescriptor} {s : RegistryState}
    {e : WindowState} (hfind : s.windows.find? (fun w => w.id == d.id) = some e)
    (hmin : e.isMinimized = true) :
    (openWindow d s).windows = s.windows.map (fun w =>
      if w.id == d.id then
        { w with isMinimized := false, isFocused := true, zIndex := s.topZIndex + 1 }
      else
        { w with isFocused := false }) := by
  rw [openWindow_eq_of_minimized hfind hmin]

/-- Windows list of `openWindow` in the existing-and-not-minimized branch. -/
lemma openWindow_windows_of_not_minimized {d : WindowDescriptor} {s : RegistryState}
    {e : WindowState} (hfind : s.windows.find? (fun w => w.id == d.id) = some e)
    (hmin : e.isMinimized = false) :
    (openWindow d s).windows = s.windows.map (fun w =>
      if w.id == d.id then
        { w with isFocused := true, zIndex := s.topZIndex + 1 }
      else
        { w with isFocused := false }) := by
  rw [openWindow_eq_of_not_minimized hfind hmin]

/-- Windows list of `openWindow` in the fresh-id branch. -/
lemma openWindow_windows_of_absent {d : WindowDescriptor} {s : RegistryState}
    (hfind : s.windows.find? (fun w => w.id == d.id) = none) :
    (openWindow d s).windows = s.windows.map (fun w => { w with isFocused := false }) ++
      [{ id := d.id, title := d.title, x := d.x, y := d.y,
         width := d.width, height := d.height, zIndex := s.topZIndex + 1,
         isMinimized := d.isMinimized, isMaximized := d.isMaximized,
         isFocused := true, payload := d.payload }] := by
  rw [openWindow_eq_of_absent hfind]

/-- Every focus-affecting operation bumps the counter by exactly 1. -/
lemma topZ_increment (s : RegistryState) (op : WMOp) (h : focusAffecting op = true) :
    (applyOp s op).topZIndex = s.topZIndex + 1 := by
  cases op with
  | openWindow d => exact openWindow_topZIndex d s
  | restoreWindow i => exact restoreWindow_topZIndex i s
  | focusWindow i => exact focusWindow_topZIndex i s
  | closeWindow i => simp [focusAffecting] at h
  | minimizeWindow i => simp [focusAffecting] at h
  | maximizeWindow i => simp [focusAffecting] at h
  | updateWindowPosition i x y => simp [focusAffecting] at h
  | updateWindowSize i wd ht => simp [focusAffecting] at h

/-- No operation ever decreases the counter. -/
lemma topZ_mono (s : RegistryState) (op : WMOp) :
    s.topZIndex ≤ (applyOp s op).topZIndex := by
  cases op with
  | openWindow d =>
    have := openWindow_topZIndex d s
    show s.topZIndex ≤ (openWindow d s).topZIndex
    omega
  | restoreWindow i =>
    have := restoreWindow_topZIndex i s
    show s.topZIndex ≤ (restoreWindow i s).topZIndex
    omega
  | focusWindow i =>
    have := focusWindow_topZIndex i s
    show s.topZIndex ≤ (focusWindow i s).topZIndex
    omega
  | closeWindow i => exact le_of_eq (closeWindow_topZIndex i s).symm
  | minimizeWindow i => exact le_of_eq (minimizeWindow_topZIndex i s).symm
  | maximizeWindow i => exact le_of_eq (maximizeWindow_topZIndex i s).symm
  | updateWindowPosition i x y => exact le_of_eq (updateWindowPosition_topZIndex i x y s).symm
  | updateWindowSize i wd ht => exact le_of_eq (updateWindowSize_topZIndex i wd ht s).symm

/-- The counter never decreases over a run of operations. -/
lemma topZ_mono_run (s : RegistryState) (ops : List WMOp) :
    s.topZIndex ≤ (runFrom s ops).topZIndex := by
  induction ops generalizing s with
  | nil => exact le_refl _
  | cons op t ih => exact le_trans (topZ_mono s op) (ih (applyOp s op))

/-- Splitting a run of operations. -/
lemma runOps_append (pre post : List WMOp) :
    runOps (pre ++ post) = runFrom (runOps pre) post := by
  simp [runOps, runFrom, List.foldl_append]

/-- Helper: z-index facts for the focus-transfer map shape shared by
`openWindow` (existing-id branches), `restoreWindow` and `focusWindow`:
the matching record gets the fresh value, every other record keeps its
`id`-`zIndex` pair, and no record's `zIndex` decreases. -/
lemma zfacts_focus_map (aid : String) (top : Nat) {l : List WindowState}
    {f : WindowState → WindowState}
    (hfid : ∀ w, (f w).id = w.id)
    (hfz : ∀ w, (f w).zIndex = if w.id == aid then top + 1 else w.zIndex)
    (hids : (l.map (fun w => w.id)).Nodup) (hz : ∀ w ∈ l, w.zIndex ≤ top) :
    (∀ w ∈ l.map f, w.id = aid → w.zIndex = top + 1) ∧
    (∀ w ∈ l.map f, w.id ≠ aid → w.zIndex ≤ top) ∧
    ((l.map f).filter (fun w => !(w.id == aid))).map (fun w => (w.id, w.zIndex)) =
      (l.filter (fun w => !(w.id == aid))).map (fun w => (w.id, w.zIndex)) ∧
    (∀ w' ∈ l.map f, ∀ w ∈ l, w.id = w'.id → w.zIndex ≤ w'.zIndex) := by
  refine ⟨?_, ?_, ?_, ?_⟩
  · intro w hw hwid
    obtain ⟨u, hu, rfl⟩ := List.mem_map.mp hw
    rw [hfid] at hwid
    rw [hfz]
    simp [hwid]
  · intro w hw hwid
    obtain ⟨u, hu, rfl⟩ := List.mem_map.mp hw
    rw [hfid] at hwid
    rw [hfz]
    simpa [hwid] using hz u hu
  · rw [List.filter_map, List.map_map]
    rw [List.filter_congr (fun u _ => by
      show ((fun w => !(w.id == aid)) ∘ f) u = !(u.id == aid)
      simp [Function.comp, hfid])]
    refine List.map_congr_left ?_
    intro u hu
    rw [List.mem_filter] at hu
    have hne : ¬u.id = aid := by simpa using hu.2
    simp [Function.comp, hfid, hfz, hne]
  · intro w' hw' w hw hid
    obtain ⟨u, hu, rfl⟩ := List.mem_map.mp hw'
    rw [hfid] at hid
    by_cases huid : u.id = aid
    · rw [hfz]
      have := hz w hw
      simp [huid]
      omega
    · have hwu : w = u := eq_of_mem_of_id_eq hids hw hu hid
      subst hwu
      rw [hfz]
      simp [huid]

/-- Helper: two distinct members both satisfying a predicate force the count
to be at least two. -/
lemma two_le_countP_of_two_mem {l : List WindowState} {p : WindowState → Bool}
    {u v : WindowState} (hu : u ∈ l) (hv : v ∈ l) (hne : u ≠ v)
    (hpu : p u = true) (hpv : p v = true) : 2 ≤ l.countP p := by
  induction l with
  | nil => cases hu
  | cons a t ih =>
    rw [List.countP_cons]
    rcases List.mem_cons.mp hu with rfl | hu'
    · rcases List.mem_cons.mp hv with rfl | hv'
      · exact absurd rfl hne
      · have h1 : 0 < t.countP p := List.countP_pos_iff.mpr ⟨v, hv', hpv⟩
        rw [if_pos hpu]
        omega
    · rcases List.mem_cons.mp hv with rfl | hv'
      · have h1 : 0 < t.countP p := List.countP_pos_iff.mpr ⟨u, hu', hpu⟩
        rw [if_pos hpv]
        omega
      · have h2 := ih hu' hv'
        by_cases hpa : p a = true
        · rw [if_pos hpa]; omega
        · rw [if_neg hpa]; omega

/-- Helper: counting non-matches and matches partitions the length. -/
lemma countP_not_id_add (l : List WindowState) (i : String) :
    l.countP (fun w => !(w.id == i)) + l.countP (fun w => w.id == i) = l.length := by
  induction l with
  | nil => rfl
  | cons a t ih =>
    rw [List.countP_cons, List.countP_cons]
    by_cases h : a.id = i <;> simp [h] <;> omega

/-- A focus-safe operation preserves the minimized-is-unfocused invariant. -/
lemma minimizedUnfocused_applyOp (s : RegistryState) (op : WMOp) (hinv : Inv s)
    (h : minimizedUnfocused s) (hsafe : safeOp s op) :
    minimizedUnfocused (applyOp s op) := by
  obtain ⟨hids, _, _⟩ := hinv
  unfold uniqueIds at hids
  cases op with
  | openWindow d =>
    show minimizedUnfocused (openWindow d s)
    cases hfind : s.windows.find? (fun w => w.id == d.id) with
    | some e =>
      have heid : e.id = d.id := by simpa using List.find?_some hfind
      have hemem : e ∈ s.windows := List.mem_of_find?_eq_some hfind
      by_cases hmin : e.isMinimized = true
      · unfold minimizedUnfocused
        rw [openWindow_windows_of_minimized hfind hmin]
        intro w hw
        obtain ⟨u, hu, rfl⟩ := List.mem_map.mp hw
        by_cases huid : u.id = d.id <;> simp [huid]
      · have hmin' : e.isMinimized = false := by simpa using hmin
        unfold minimizedUnfocused
        rw [openWindow_windows_of_not_minimized hfind hmin']
        intro w hw
        obtain ⟨u, hu, rfl⟩ := List.mem_map.mp hw
        by_cases huid : u.id = d.id
        · have hue : u = e := eq_of_mem_of_id_eq hids hu hemem (heid ▸ huid)
          simp [huid, hue, hmin', heid]
        · simp [huid]
    | none =>
      have habs : ∀ w ∈ s.windows, w.id ≠ d.id := by
        intro w hw
        have := List.find?_eq_none.mp hfind w hw
        simpa using this
      have hdm : d.isMinimized = false := by
        simp only [safeOp] at hsafe
        rcases hsafe with hdm | ⟨w, hw, hwid⟩
        · exact hdm
        · exact absurd hwid (habs w hw)
      unfold minimizedUnfocused
      rw [openWindow_windows_of_absent hfind]
      intro w hw
      rcases List.mem_append.mp hw with hw' | hw'
      · obtain ⟨u, hu, rfl⟩ := List.mem_map.mp hw'
        simp
      · rw [List.mem_singleton] at hw'
        subst hw'
        simp [hdm]
  | closeWindow i =>
    show minimizedUnfocused (closeWindow i s)
    unfold minimizedUnfocused
    rw [closeWindow_windows]
    intro w hw
    exact h w (List.mem_filter.mp hw).1
  | minimizeWindow i =>
    show minimizedUnfocused (minimizeWindow i s)
    unfold minimizedUnfocused
    rw [minimizeWindow_windows]
    intro w hw
    obtain ⟨u, hu, rfl⟩ := List.mem_map.mp hw
    by_cases huid : u.id = i
    · simp [huid]
    · simpa [huid] using h u hu
  | maximizeWindow i =>
    show minimizedUnfocused (maximizeWindow i s)
    unfold minimizedUnfocused
    rw [maximizeWindow_windows]
    intro w hw
    obtain ⟨u, hu, rfl⟩ := List.mem_map.mp hw
    by_cases huid : u.id = i <;> simpa [huid] using h u hu
  | restoreWindow i =>
    show minimizedUnfocused (restoreWindow i s)
    unfold minimizedUnfocused
    rw [restoreWindow_windows]
    intro w hw
    obtain ⟨u, hu, rfl⟩ := List.mem_map.mp hw
    by_cases huid : u.id = i <;> simp [huid]
  | focusWindow i =>
    show minimizedUnfocused (focusWindow i s)
    simp only [safeOp] at hsafe
    unfold minimizedUnfocused
    rw [focusWindow_windows]
    intro w hw
    obtain ⟨u, hu, rfl⟩ := List.mem_map.mp hw
    by_cases huid : u.id = i
    · simp [huid, hsafe u hu huid]
    · simp [huid]
  | updateWindowPosition i x y =>
    show minimizedUnfocused (updateWindowPosition i x y s)
    unfold minimizedUnfocused
    rw [updateWindowPosition_windows]
    intro w hw
    obtain ⟨u, hu, rfl⟩ := List.mem_map.mp hw
    by_cases huid : u.id = i <;> simpa [huid] using h u hu
  | updateWindowSize i wd ht =>
    show minimizedUnfocused (updateWindowSize i wd ht s)
    unfold minimizedUnfocused
    rw [updateWindowSize_windows]
    intro w hw
    obtain ⟨u, hu, rfl⟩ := List.mem_map.mp hw
    by_cases huid : u.id = i <;> simpa [huid] using h u hu

/-- Every safely reachable state is reachable. -/
lemma safeReachable_reachable {s : RegistryState} (h : SafeReachable s) :
    Reachable s := by
  induction h with
  | init => exact Reachable.init
  | step op _ _ ih => exact Reachable.step op ih

/-- Helper: a map that fixes every member of a list leaves the list
unchanged. -/
lemma map_eq_self_of_fixes {l : List WindowState} {f : WindowState → WindowState}
    (h : ∀ w ∈ l, f w = w) : l.map f = l := by
  rw [List.map_congr_left h, List.map_id']

/-- Helper: an appended element rejected by the filter drops out. -/
lemma filter_append_singleton_false {l : List WindowState} {p : WindowState → Bool}
    {a : WindowState} (ha : p a = false) : (l ++ [a]).filter p = l.filter p := by
  simp [List.filter_append, ha]

/-- C1: for every sequence of the eight registry operations applied from the
initial empty registry, after each operation the number of records with
`isFocused = true` is 0 or 1, never more. -/
theorem single_focus_invariant (ops : List WMOp) :
    focusedCount (runOps ops) = 0 ∨ focusedCount (runOps ops) = 1 := by
  have h := (reachable_inv (reachable_runOps ops)).2.1
  omega

/-- C2 counterexample: from the empty registry, open "a", minimize "a", then
focus "a"; the resulting registry holds a record that is simultaneously
minimized and focused, so the claimed invariant fails on the code. -/
theorem focus_on_minimized_counterexample :
    ∃ w ∈ (runOps [WMOp.openWindow descA, WMOp.minimizeWindow "a",
      WMOp.focusWindow "a"]).windows, w.isMinimized = true ∧ w.isFocused = true := by
  decide

/-- C2 amended: in every state reachable by focus-safe sequences — sequences
that never call focus on an id whose record is minimized and never open a
fresh id with `isMinimized = true` in the descriptor — every record with
`isMinimized = true` has `isFocused = false`. -/
theorem minimized_never_focused_amended {s : RegistryState} (h : SafeReachable s) :
    ∀ w ∈ s.windows, w.isMinimized = true → w.isFocused = false := by
  induction h with
  | init =>
    intro w hw
    simp [initialRegistry] at hw
  | step op hs hsafe ih =>
    exact minimizedUnfocused_applyOp _ op (reachable_inv (safeReachable_reachable hs)) ih hsafe

/-- Witness for the amended C2 theorem at the concrete safe run
open "a"; minimize "a". -/
theorem minimized_never_focused_amended_witness :
    ({ id := "a", title := "A", x := 0, y := 0, width := 100, height := 100,
       zIndex := 101, isMinimized := true, isMaximized := false, isFocused := false,
       payload := "" } : WindowState).isFocused = false :=
  minimized_never_focused_amended
    (SafeReachable.step (WMOp.minimizeWindow "a")
      (SafeReachable.step (WMOp.openWindow descA) SafeReachable.init (Or.inl rfl))
      True.intro)
    _ (by decide) rfl

/-- C3 counterexample: in the registry obtained by opening "a", the id "b" is
absent, yet neither `restoreWindow "b"` nor `focusWindow "b"` leaves the
snapshot unchanged (both clear focus and bump the counter). -/
theorem restore_focus_absent_not_noop :
    (∀ w ∈ (runOps [WMOp.openWindow descA]).windows, w.id ≠ "b") ∧
    restoreWindow "b" (runOps [WMOp.openWindow descA]) ≠ runOps [WMOp.openWindow descA] ∧
    focusWindow "b" (runOps [WMOp.openWindow descA]) ≠ runOps [WMOp.openWindow descA] := by
  refine ⟨by decide, by decide, by decide⟩

/-- C3 amended: for every registry state and every id matching no record,
`restoreWindow` and `focusWindow` keep the record set and every record's
id, geometry, `isMinimized`, `isMaximized` and `zIndex`, but clear
`isFocused` on every record and increment `topZIndex` by 1. -/
theorem restore_focus_absent_amended (s : RegistryState) (i : String)
    (h : ∀ w ∈ s.windows, w.id ≠ i) :
    restoreWindow i s =
      { windows := s.windows.map (fun w => { w with isFocused := false }),
        topZIndex := s.topZIndex + 1 } ∧
    focusWindow i s =
      { windows := s.windows.map (fun w => { w with isFocused := false }),
        topZIndex := s.topZIndex + 1 } := by
  constructor
  · refine registry_ext ?_ (restoreWindow_topZIndex i s)
    rw [restoreWindow_windows]
    refine List.map_congr_left ?_
    intro w hw
    simp [h w hw]
  · refine registry_ext ?_ (focusWindow_topZIndex i s)
    rw [focusWindow_windows]
    refine List.map_congr_left ?_
    intro w hw
    simp [h w hw]

/-- Witness for the amended C3 theorem: restoring the absent id "b" after
opening "a" unfocuses "a" and bumps the counter to 102. -/
theorem restore_focus_absent_amended_witness :
    restoreWindow "b" (runOps [WMOp.openWindow descA]) =
      { windows := [
          { id := "a", title := "A", x := 0, y := 0, width := 100, height := 100,
            zIndex := 101, isMinimized := false, isMaximized := false,
            isFocused := false, payload := "" }],
        topZIndex := 102 } := by
  have h := (restore_focus_absent_amended (runOps [WMOp.openWindow descA]) "b" (by decide)).1
  rw [h]
  rfl

/-- C6: `closeWindow`, `minimizeWindow`, `maximizeWindow`,
`updateWindowPosition` and `updateWindowSize` on an id matching no record
leave the registry snapshot unchanged. -/
theorem absent_id_noop (s : RegistryState) (i : String) (x y wd ht : Int)
    (h : ∀ w ∈ s.windows, w.id ≠ i) :
    closeWindow i s = s ∧ minimizeWindow i s = s ∧ maximizeWindow i s = s ∧
    updateWindowPosition i x y s = s ∧ updateWindowSize i wd ht s = s := by
  refine ⟨?_, ?_, ?_, ?_, ?_⟩
  · refine registry_ext ?_ (closeWindow_topZIndex i s)
    rw [closeWindow_windows]
    rw [List.filter_eq_self.mpr]
    intro w hw
    simp [h w hw]
  · refine registry_ext ?_ (minimizeWindow_topZIndex i s)
    rw [minimizeWindow_windows]
    refine map_eq_self_of_fixes ?_
    intro w hw
    simp [h w hw]
  · refine registry_ext ?_ (maximizeWindow_topZIndex i s)
    rw [maximizeWindow_windows]
    refine map_eq_self_of_fixes ?_
    intro w hw
    simp [h w hw]
  · refine registry_ext ?_ (updateWindowPosition_topZIndex i x y s)
    rw [updateWindowPosition_windows]
    refine map_eq_self_of_fixes ?_
    intro w hw
    simp [h w hw]
  · refine registry_ext ?_ (updateWindowSize_topZIndex i wd ht s)
    rw [updateWindowSize_windows]
    refine map_eq_self_of_fixes ?_
    intro w hw
    simp [h w hw]

/-- Witness for C6 at the concrete registry holding only "a" and the absent
id "b". -/
theorem absent_id_noop_witness :
    closeWindow "b" (runOps [WMOp.openWindow descA]) = runOps [WMOp.openWindow descA] ∧
    minimizeWindow "b" (runOps [WMOp.openWindow descA]) = runOps [WMOp.openWindow descA] ∧
    maximizeWindow "b" (runOps [WMOp.openWindow descA]) = runOps [WMOp.openWindow descA] ∧
    updateWindowPosition "b" 5 6 (runOps [WMOp.openWindow descA]) = runOps [WMOp.openWindow descA] ∧
    updateWindowSize "b" 7 8 (runOps [WMOp.openWindow descA]) = runOps [WMOp.openWindow descA] :=
  absent_id_noop (runOps [WMOp.openWindow descA]) "b" 5 6 7 8 (by decide)

/-- C8: `updateWindowPosition` sets only the matching record's `x` and `y`,
`updateWindowSize` sets only the matching record's `width` and `height`; all
other fields of every record and the counter are unchanged. -/
theorem update_geometry_frame_effect (s : RegistryState) (i : String) (x y wd ht : Int) :
    (updateWindowPosition i x y s).topZIndex = s.topZIndex ∧
    (updateWindowPosition i x y s).windows.map
        (fun w => (w.id, w.title, w.zIndex, w.isFocused, w.isMinimized, w.isMaximized,
          w.width, w.height, w.payload)) =
      s.windows.map
        (fun w => (w.id, w.title, w.zIndex, w.isFocused, w.isMinimized, w.isMaximized,
          w.width, w.height, w.payload)) ∧
    (updateWindowPosition i x y s).windows.map (fun w => (w.x, w.y)) =
      s.windows.map (fun w => if w.id == i then (x, y) else (w.x, w.y)) ∧
    (updateWindowSize i wd ht s).topZIndex = s.topZIndex ∧
    (updateWindowSize i wd ht s).windows.map
        (fun w => (w.id, w.title, w.zIndex, w.isFocused, w.isMinimized, w.isMaximized,
          w.x, w.y, w.payload)) =
      s.windows.map
        (fun w => (w.id, w.title, w.zIndex, w.isFocused, w.isMinimized, w.isMaximized,
          w.x, w.y, w.payload)) ∧
    (updateWindowSize i wd ht s).windows.map (fun w => (w.width, w.height)) =
      s.windows.map (fun w => if w.id == i then (wd, ht) else (w.width, w.height)) := by
  refine ⟨updateWindowPosition_topZIndex i x y s, ?_, ?_,
    updateWindowSize_topZIndex i wd ht s, ?_, ?_⟩
  · rw [updateWindowPosition_windows, List.map_map]
    refine List.map_congr_left ?_
    intro w hw
    by_cases h : w.id = i <;> simp [Function.comp, h]
  · rw [updateWindowPosition_windows, List.map_map]
    refine List.map_congr_left ?_
    intro w hw
    by_cases h : w.id = i <;> simp [Function.comp, h]
  · rw [updateWindowSize_windows, List.map_map]
    refine List.map_congr_left ?_
    intro w hw
    by_cases h : w.id = i <;> simp [Function.comp, h]
  · rw [updateWindowSize_windows, List.map_map]
    refine List.map_congr_left ?_
    intro w hw
    by_cases h : w.id = i <;> simp [Function.comp, h]

/-- C9: invoking `useWindowManager` with no surrounding provider (a `null`
context) throws, and with a provider it returns the context itself — never a
degraded or null controller. -/
theorem use_window_manager_fails_fast :
    useWindowManager none =
      Except.error "useWindowManager must be used within WindowManagerProvider" ∧
    ∀ ctx : WindowManagerContextType, useWindowManager (some ctx) = Except.ok ctx :=
  ⟨rfl, fun _ => rfl⟩

/-- C10: when `openWindow` is called with an id already present, every field
of the descriptor other than `id` is ignored: each record keeps its prior
`title`, geometry, `isMaximized` and payload, so only `isMinimized`,
`isFocused` and `zIndex` may change. -/
theorem open_existing_ignores_descriptor (s : RegistryState) (d : WindowDescriptor)
    (h : ∃ w ∈ s.windows, w.id = d.id) :
    (openWindow d s).windows.map
        (fun w => (w.id, w.title, w.x, w.y, w.width, w.height, w.isMaximized, w.payload)) =
      s.windows.map
        (fun w => (w.id, w.title, w.x, w.y, w.width, w.height, w.isMaximized, w.payload)) := by
  obtain ⟨w₀, hw₀, hid₀⟩ := h
  cases hfind : s.windows.find? (fun w => w.id == d.id) with
  | none =>
    exact absurd hid₀ (by simpa using List.find?_eq_none.mp hfind w₀ hw₀)
  | some e =>
    by_cases hmin : e.isMinimized = true
    · rw [openWindow_windows_of_minimized hfind hmin, List.map_map]
      refine List.map_congr_left ?_
      intro w hw
      by_cases hwid : w.id = d.id <;> simp [Function.comp, hwid]
    · rw [openWindow_windows_of_not_minimized hfind (by simpa using hmin), List.map_map]
      refine List.map_congr_left ?_
      intro w hw
      by_cases hwid : w.id = d.id <;> simp [Function.comp, hwid]

/-- Witness for C10: re-opening the minimized "a" keeps its recorded fields. -/
theorem open_existing_ignores_descriptor_witness :
    (openWindow descA (runOps [WMOp.openWindow descA, WMOp.minimizeWindow "a"])).windows.map
        (fun w => (w.id, w.title, w.x, w.y, w.width, w.height, w.isMaximized, w.payload)) =
      (runOps [WMOp.openWindow descA, WMOp.minimizeWindow "a"]).windows.map
        (fun w => (w.id, w.title, w.x, w.y, w.width, w.height, w.isMaximized, w.payload)) :=
  open_existing_ignores_descriptor _ descA (by decide)

/-- Helper: guarantees of the focus-transfer map shape when a matching
record is present: exactly one id match, exactly one focused record, only
the match is focused, and the match strictly tops the z-order. -/
lemma open_like_facts (aid : String) (s : RegistryState)
    {f : WindowState → WindowState}
    (hfid : ∀ w, (f w).id = w.id)
    (hffoc : ∀ w, (f w).isFocused = (w.id == aid))
    (hfz : ∀ w, (f w).zIndex = if w.id == aid then s.topZIndex + 1 else w.zIndex)
    (hids : (s.windows.map (fun w => w.id)).Nodup)
    (hz : ∀ w ∈ s.windows, w.zIndex ≤ s.topZIndex)
    (hmem : ∃ w ∈ s.windows, w.id = aid) :
    (s.windows.map f).countP (fun w => w.id == aid) = 1 ∧
    (s.windows.map f).countP (fun w => w.isFocused) = 1 ∧
    (∀ w ∈ s.windows.map f, w.isFocused = true → w.id = aid) ∧
    (∀ w ∈ s.windows.map f, w.id = aid →
      ∀ u ∈ s.windows.map f, u.id ≠ aid → u.zIndex < w.zIndex) := by
  obtain ⟨w₀, hw₀, hid₀⟩ := hmem
  have hcount : s.windows.countP (fun w => w.id == aid) = 1 :=
    countP_id_eq_one hids hw₀ hid₀
  refine ⟨?_, ?_, ?_, ?_⟩
  · rw [List.countP_map,
      List.countP_congr (q := fun w => w.id == aid)
        (fun u _ => by simp [Function.comp, hfid])]
    exact hcount
  · rw [countP_focused_map (i := aid) hffoc]
    exact hcount
  · intro w hw hfoc
    obtain ⟨u, hu, rfl⟩ := List.mem_map.mp hw
    rw [hffoc] at hfoc
    rw [hfid]
    simpa using hfoc
  · have hzf := zfacts_focus_map aid s.topZIndex hfid hfz hids hz
    intro w hw hwid u hu huid
    have h1 := hzf.1 w hw hwid
    have h2 := hzf.2.1 u hu huid
    omega

/-- C5: after `openWindow d` in any reachable state, exactly one record
carries `d.id`, exactly one record is focused (only that record), and that
record strictly tops the z-order; all reachable states have pairwise
distinct ids; and the run open "a", minimize "a", open "a" ends with exactly
one record "a", un-minimized and focused. -/
theorem open_guarantees :
    (∀ (s : RegistryState) (d : WindowDescriptor), Reachable s →
      (openWindow d s).windows.countP (fun w => w.id == d.id) = 1 ∧
      focusedCount (openWindow d s) = 1 ∧
      (∀ w ∈ (openWindow d s).windows, w.isFocused = true → w.id = d.id) ∧
      (∀ w ∈ (openWindow d s).windows, w.id = d.id →
        ∀ u ∈ (openWindow d s).windows, u.id ≠ d.id → u.zIndex < w.zIndex)) ∧
    (∀ s : RegistryState, Reachable s → uniqueIds s) ∧
    ((runOps [WMOp.openWindow descA, WMOp.minimizeWindow "a",
        WMOp.openWindow descA]).windows.countP (fun w => w.id == "a") = 1 ∧
      ∀ w ∈ (runOps [WMOp.openWindow descA, WMOp.minimizeWindow "a",
        WMOp.openWindow descA]).windows,
        w.id = "a" → w.isMinimized = false ∧ w.isFocused = true) := by
  refine ⟨?_, fun s h => (reachable_inv h).1, by decide⟩
  intro s d h
  obtain ⟨hids, _, hz⟩ := reachable_inv h
  unfold uniqueIds at hids
  unfold zBounded at hz
  cases hfind : s.windows.find? (fun w => w.id == d.id) with
  | some e =>
    have heid : e.id = d.id := by simpa using List.find?_some hfind
    have hemem : e ∈ s.windows := List.mem_of_find?_eq_some hfind
    by_cases hmin : e.isMinimized = true
    · have hwin := openWindow_windows_of_minimized hfind hmin
      obtain ⟨hc1, hc2, hc3, hc4⟩ :=
        open_like_facts d.id s
          (f := fun w =>
            if w.id == d.id then
              { w with isMinimized := false, isFocused := true, zIndex := s.topZIndex + 1 }
            else
              { w with isFocused := false })
          (fun w => by by_cases hw : w.id = d.id <;> simp [hw])
          (fun w => by by_cases hw : w.id = d.id <;> simp [hw])
          (fun w => by by_cases hw : w.id = d.id <;> simp [hw])
          hids hz ⟨e, hemem, heid⟩
      refine ⟨?_, ?_, ?_, ?_⟩
      · rw [hwin]; exact hc1
      · unfold focusedCount; rw [hwin]; exact hc2
      · rw [hwin]; exact hc3
      · rw [hwin]; exact hc4
    · have hwin := openWindow_windows_of_not_minimized hfind (by simpa using hmin)
      obtain ⟨hc1, hc2, hc3, hc4⟩ :=
        open_like_facts d.id s
          (f := fun w =>
            if w.id == d.id then
              { w with isFocused := true, zIndex := s.topZIndex + 1 }
            else
              { w with isFocused := false })
          (fun w => by by_cases hw : w.id = d.id <;> simp [hw])
          (fun w => by by_cases hw : w.id = d.id <;> simp [hw])
          (fun w => by by_cases hw : w.id = d.id <;> simp [hw])
          hids hz ⟨e, hemem, heid⟩
      refine ⟨?_, ?_, ?_, ?_⟩
      · rw [hwin]; exact hc1
      · unfold focusedCount; rw [hwin]; exact hc2
      · rw [hwin]; exact hc3
      · rw [hwin]; exact hc4
  | none =>
    have habs : ∀ w ∈ s.windows, w.id ≠ d.id := by
      intro w hw
      have := List.find?_eq_none.mp hfind w hw
      simpa using this
    have hwin := openWindow_windows_of_absent hfind
    have h0 : (s.windows.map (fun w => { w with isFocused := false })).countP
        (fun w => w.id == d.id) = 0 := by
      rw [List.countP_eq_zero]
      intro w hw
      obtain ⟨u, hu, rfl⟩ := List.mem_map.mp hw
      simpa using habs u hu
    refine ⟨?_, ?_, ?_, ?_⟩
    · rw [hwin, List.countP_append, h0]
      simp [List.countP_cons]
    · unfold focusedCount
      rw [hwin, List.countP_append]
      have h1 : (s.windows.map (fun w => { w with isFocused := false })).countP
          (fun w => w.isFocused) = 0 := by
        rw [List.countP_eq_zero]
        intro w hw
        obtain ⟨u, hu, rfl⟩ := List.mem_map.mp hw
        simp
      rw [h1]
      simp [List.countP_cons]
    · rw [hwin]
      intro w hw
      rcases List.mem_append.mp hw with hw' | hw'
      · obtain ⟨u, hu, rfl⟩ := List.mem_map.mp hw'
        simp
      · rw [List.mem_singleton] at hw'
        subst hw'
        intro _
        rfl
    · rw [hwin]
      intro w hw hwid u hu huid
      rcases List.mem_append.mp hw with hw' | hw'
      · obtain ⟨u', hu', rfl⟩ := List.mem_map.mp hw'
        exact absurd hwid (by simpa using habs u' hu')
      · rw [List.mem_singleton] at hw'
        subst hw'
        rcases List.mem_append.mp hu with hu' | hu'
        · obtain ⟨u', hu'', rfl⟩ := List.mem_map.mp hu'
          have := hz u' hu''
          show u'.zIndex < s.topZIndex + 1
          omega
        · rw [List.mem_singleton] at hu'
          subst hu'
          exact absurd rfl huid

/-- Witness for C5 at the empty initial registry and descriptor "a". -/
theorem open_guarantees_witness :
    (openWindow descA initialRegistry).windows.countP (fun w => w.id == descA.id) = 1 ∧
    focusedCount (openWindow descA initialRegistry) = 1 := by
  have h := open_guarantees.1 initialRegistry descA Reachable.init
  exact ⟨h.1, h.2.1⟩

/-- C7: in every reachable state containing a record with the given id,
`closeWindow` removes exactly that record, keeps every other record and the
counter unchanged, and does not reassign focus: if the closed record was
focused no record is focused afterwards. -/
theorem close_removes_exactly (s : RegistryState) (i : String) (h : Reachable s)
    (hmem : ∃ w ∈ s.windows, w.id = i) :
    (closeWindow i s).topZIndex = s.topZIndex ∧
    (closeWindow i s).windows.length + 1 = s.windows.length ∧
    (∀ w ∈ (closeWindow i s).windows, w ∈ s.windows ∧ w.id ≠ i) ∧
    (∀ w ∈ s.windows, w.id ≠ i → w ∈ (closeWindow i s).windows) ∧
    ((∃ w ∈ s.windows, w.id = i ∧ w.isFocused = true) →
      focusedCount (closeWindow i s) = 0) := by
  obtain ⟨hids, hfoc, _⟩ := reachable_inv h
  unfold uniqueIds at hids
  obtain ⟨w₀, hw₀, hid₀⟩ := hmem
  refine ⟨closeWindow_topZIndex i s, ?_, ?_, ?_, ?_⟩
  · rw [closeWindow_windows]
    rw [← List.countP_eq_length_filter]
    have hcnt := countP_not_id_add s.windows i
    have h1 := countP_id_eq_one hids hw₀ hid₀
    omega
  · rw [closeWindow_windows]
    intro w hw
    rw [List.mem_filter] at hw
    exact ⟨hw.1, by simpa using hw.2⟩
  · rw [closeWindow_windows]
    intro w hw hwid
    rw [List.mem_filter]
    exact ⟨hw, by simpa using hwid⟩
  · rintro ⟨wf, hwf, hwfid, hwffoc⟩
    unfold focusedCount
    rw [closeWindow_windows]
    by_contra hne
    have hpos : 0 < (s.windows.filter (fun w => !(w.id == i))).countP
        (fun w => w.isFocused) := Nat.pos_of_ne_zero hne
    obtain ⟨u, hu, hufoc⟩ := List.countP_pos_iff.mp hpos
    rw [List.mem_filter] at hu
    have huid : u.id ≠ i := by simpa using hu.2
    have hune : u ≠ wf := fun he => huid (he ▸ hwfid)
    have h2 : 2 ≤ s.windows.countP (fun w => w.isFocused) :=
      two_le_countP_of_two_mem hu.1 hwf hune hufoc hwffoc
    unfold focusedCount at hfoc
    omega

/-- Witness for C7: closing the focused "b" out of the registry holding "a"
and "b" keeps the counter, drops the length by one and leaves no record
focused. -/
theorem close_removes_exactly_witness :
    (closeWindow "b" (runOps [WMOp.openWindow descA, WMOp.openWindow descB])).topZIndex =
      (runOps [WMOp.openWindow descA, WMOp.openWindow descB]).topZIndex ∧
    (closeWindow "b" (runOps [WMOp.openWindow descA, WMOp.openWindow descB])).windows.length + 1 =
      (runOps [WMOp.openWindow descA, WMOp.openWindow descB]).windows.length ∧
    focusedCount (closeWindow "b" (runOps [WMOp.openWindow descA, WMOp.openWindow descB])) = 0 := by
  have h := close_removes_exactly (runOps [WMOp.openWindow descA, WMOp.openWindow descB]) "b"
    (reachable_runOps _) (by decide)
  exact ⟨h.1, h.2.1, h.2.2.2.2 (by decide)⟩

/-- C4: every focus-affecting operation bumps the single counter by exactly
1 and assigns the post-increment value to the record with the affected id,
leaving every other record's id-zIndex pair unchanged and never decreasing
any record's zIndex; and across any sequence the value assigned by a later
focus-affecting operation is strictly greater than that assigned by an
earlier one. -/
theorem zindex_allocation_monotonic :
    (∀ (s : RegistryState) (op : WMOp), Reachable s → focusAffecting op = true →
      (applyOp s op).topZIndex = s.topZIndex + 1 ∧
      (∀ w ∈ (applyOp s op).windows, w.id = affectedId op →
        w.zIndex = s.topZIndex + 1) ∧
      ((applyOp s op).windows.filter (fun w => !(w.id == affectedId op))).map
          (fun w => (w.id, w.zIndex)) =
        (s.windows.filter (fun w => !(w.id == affectedId op))).map
          (fun w => (w.id, w.zIndex)) ∧
      (∀ w' ∈ (applyOp s op).windows, ∀ w ∈ s.windows, w.id = w'.id →
        w.zIndex ≤ w'.zIndex)) ∧
    (∀ (pre mid : List WMOp) (opA opB : WMOp), focusAffecting opA = true →
      focusAffecting opB = true →
      (applyOp (runOps pre) opA).topZIndex <
        (applyOp (runOps (pre ++ opA :: mid)) opB).topZIndex) := by
  constructor
  · intro s op h hop
    obtain ⟨hids, _, hz⟩ := reachable_inv h
    unfold uniqueIds at hids
    unfold zBounded at hz
    refine ⟨topZ_increment s op hop, ?_⟩
    cases op with
    | openWindow d =>
      simp only [applyOp, affectedId]
      cases hfind : s.windows.find? (fun w => w.id == d.id) with
      | some e =>
        by_cases hmin : e.isMinimized = true
        · have hwin := openWindow_windows_of_minimized hfind hmin
          have hzf := zfacts_focus_map d.id s.topZIndex
            (f := fun w =>
              if w.id == d.id then
                { w with isMinimized := false, isFocused := true, zIndex := s.topZIndex + 1 }
              else
                { w with isFocused := false })
            (fun w => by by_cases hw : w.id = d.id <;> simp [hw])
            (fun w => by by_cases hw : w.id = d.id <;> simp [hw])
            hids hz
          rw [hwin]
          exact ⟨hzf.1, hzf.2.2.1, hzf.2.2.2⟩
        · have hwin := openWindow_windows_of_not_minimized hfind (by simpa using hmin)
          have hzf := zfacts_focus_map d.id s.topZIndex
            (f := fun w =>
              if w.id == d.id then
                { w with isFocused := true, zIndex := s.topZIndex + 1 }
              else
                { w with isFocused := false })
            (fun w => by by_cases hw : w.id = d.id <;> simp [hw])
            (fun w => by by_cases hw : w.id = d.id <;> simp [hw])
            hids hz
          rw [hwin]
          exact ⟨hzf.1, hzf.2.2.1, hzf.2.2.2⟩
      | none =>
        have habs : ∀ w ∈ s.windows, w.id ≠ d.id := by
          intro w hw
          have := List.find?_eq_none.mp hfind w hw
          simpa using this
        have hwin := openWindow_windows_of_absent hfind
        rw [hwin]
        refine ⟨?_, ?_, ?_⟩
        · intro w hw hwid
          rcases List.mem_append.mp hw with hw' | hw'
          · obtain ⟨u, hu, rfl⟩ := List.mem_map.mp hw'
            exact absurd hwid (by simpa using habs u hu)
          · rw [List.mem_singleton] at hw'
            subst hw'
            rfl
        · rw [filter_append_singleton_false (by simp), List.filter_map,
            List.filter_congr (q := fun w => !(w.id == d.id))
              (fun u _ => by simp [Function.comp]),
            List.map_map]
          refine List.map_congr_left ?_
          intro u hu
          simp [Function.comp]
        · intro w' hw' w hw hid
          rcases List.mem_append.mp hw' with hw'' | hw''
          · obtain ⟨u, hu, rfl⟩ := List.mem_map.mp hw''
            have hwu : w = u := eq_of_mem_of_id_eq hids hw hu (by simpa using hid)
            subst hwu
            simp
          · rw [List.mem_singleton] at hw''
            subst hw''
            have := hz w hw
            show w.zIndex ≤ s.topZIndex + 1
            omega
    | restoreWindow i =>
      simp only [applyOp, affectedId]
      have hzf := zfacts_focus_map i s.topZIndex
        (f := fun w =>
          if w.id == i then
            { w with isMinimized := false, isFocused := true, zIndex := s.topZIndex + 1 }
          else
            { w with isFocused := false })
        (fun w => by by_cases hw : w.id = i <;> simp [hw])
        (fun w => by by_cases hw : w.id = i <;> simp [hw])
        hids hz
      rw [restoreWindow_windows]
      exact ⟨hzf.1, hzf.2.2.1, hzf.2.2.2⟩
    | focusWindow i =>
      simp only [applyOp, affectedId]
      have hzf := zfacts_focus_map i s.topZIndex
        (f := fun w =>
          if w.id == i then
            { w with isFocused := true, zIndex := s.topZIndex + 1 }
          else
            { w with isFocused := false })
        (fun w => by by_cases hw : w.id = i <;> simp [hw])
        (fun w => by by_cases hw : w.id = i <;> simp [hw])
        hids hz
      rw [focusWindow_windows]
      exact ⟨hzf.1, hzf.2.2.1, hzf.2.2.2⟩
    | closeWindow i => simp [focusAffecting] at hop
    | minimizeWindow i => simp [focusAffecting] at hop
    | maximizeWindow i => simp [focusAffecting] at hop
    | updateWindowPosition i x y => simp [focusAffecting] at hop
    | updateWindowSize i wd ht => simp [focusAffecting] at hop
  · intro pre mid opA opB hA hB
    have h1 : (applyOp (runOps pre) opA).topZIndex = (runOps pre).topZIndex + 1 :=
      topZ_increment _ opA hA
    have h2 : (applyOp (runOps (pre ++ opA :: mid)) opB).topZIndex =
        (runOps (pre ++ opA :: mid)).topZIndex + 1 :=
      topZ_increment _ opB hB
    have h3 : runOps (pre ++ opA :: mid) = runFrom (applyOp (runOps pre) opA) mid := by
      rw [runOps_append]
      rfl
    have h4 := topZ_mono_run (applyOp (runOps pre) opA) mid
    rw [h2, h3]
    omega

/-- Witness for C4: focusing "a" after opening it assigns 102, and a later
restore of "a" after an intervening minimize assigns a strictly greater
value. -/
theorem zindex_allocation_monotonic_witness :
    (applyOp (runOps [WMOp.openWindow descA]) (WMOp.focusWindow "a")).topZIndex = 102 ∧
    (applyOp (runOps [WMOp.openWindow descA]) (WMOp.focusWindow "a")).topZIndex <
      (applyOp (runOps ([WMOp.openWindow descA] ++ WMOp.focusWindow "a" ::
          [WMOp.minimizeWindow "a"])) (WMOp.restoreWindow "a")).topZIndex := by
  constructor
  · have h := (zindex_allocation_monotonic.1 (runOps [WMOp.openWindow descA])
      (WMOp.focusWindow "a") (reachable_runOps _) rfl).1
    rw [h]
    decide
  · exact zindex_allocation_monotonic.2 [WMOp.openWindow descA]
      [WMOp.minimizeWindow "a"] (WMOp.focusWindow "a") (WMOp.restoreWindow "a") rfl rfl

end WindowManager
